import Mathlib

/-!
Verification of the AI-Session-Management repository's RAG pipeline.

This file gives a shallow embedding, in Lean 4, of the components the
specification's claims are about:

* `TextChunker.chunkText` (src/di/container.ts, second document): text is a
  `List Char`, indices are `Int` (JavaScript `slice` accepts negative
  indices, and the chunker can produce a negative `startIndex` when
  `overlap` is close to `chunkSize`).  The `while` loop is modelled with an
  explicit fuel parameter: the source loop pushes one chunk per iteration
  and breaks as soon as more than 1000 chunks were pushed, so it runs at
  most 1001 iterations and any fuel of at least 1001 yields the loop's
  exact behaviour (proved below as fuel irrelevance).  The float threshold
  `chunkSize * 0.7` is modelled as the exact rational comparison
  `10 * lastSpaceIndex > 7 * chunkSize`.
* `AIRetryHelper.retry` (unnamed/part_004): the `for` loop over
  `attempt in 0..=maxRetries` is modelled by structural recursion over the
  number of attempts still allowed (`rest = maxRetries - attempt`), so the
  source's `attempt === maxRetries` test is `rest = 0` here.  The operation
  is a function from the invocation index, so stateful operations (fail
  twice, then succeed) are expressible.
* `AIRateLimiter.checkRateLimit` (src/common/AIRateLimiter.ts): the
  timestamp array is a `List Int`, `Date.now()` is an explicit argument.
* the two `cosineSimilarity` implementations
  (src/services/OpenAIEmbeddingService.ts and unnamed/part_003): vectors
  are `List ℝ`; the accumulation loop over equal-length vectors is the sum
  of the `zipWith` products (both call sites guard the lengths first, so
  the loop never reads past either vector).
* `TranscriptChunkRepository.findSimilarChunks` (unnamed/part_003): the
  chunk table is a `List StoredChunk`; the SQL `ORDER BY timestamp DESC`
  and the JavaScript `sort` (stable since ES2019) are both modelled with
  `List.insertionSort`, which is stable.
* `SessionService.searchSessions` (src/services/AIService.ts, second
  document) together with `OpenAIEmbeddingService.generateEmbedding`:
  collaborators that the claims treat as external (the provider fetch and
  `TextChunker.highlightText`, whose output no claim constrains) are
  oracle fields of `SearchEnv`; the number of provider fetches actually
  performed is returned next to the result.
-/

set_option maxHeartbeats 1000000

namespace AISM

/-! ## JavaScript string primitives -/

/-- Whitespace for the purposes of `String.prototype.trim` (restricted to
the ASCII whitespace that can occur in the claims' inputs). -/
def isJsWs (c : Char) : Bool :=
  c = ' ' || c = '\t' || c = '\n' || c = '\r' || c = '\x0b' || c = '\x0c'

/-- `String.prototype.trim`: drop leading and trailing whitespace. -/
def jsTrim (s : List Char) : List Char :=
  List.rdropWhile isJsWs (List.dropWhile isJsWs s)

/-- `String.prototype.slice(start, end)` with the ECMAScript clamping rules
for negative and out-of-range indices. -/
def jsSlice (s : List Char) (start stop : Int) : List Char :=
  let len : Int := s.length
  let f := if start < 0 then max (len + start) 0 else min start len
  let t := if stop < 0 then max (len + stop) 0 else min stop len
  (s.drop f.toNat).take (t - f).toNat

/-- `String.prototype.lastIndexOf` for a single character: the largest
index holding `c`, or `-1` when there is none. -/
def lastIdxOf (c : Char) : List Char → Int
  | [] => -1
  | a :: rest =>
    let r := lastIdxOf c rest
    if 0 ≤ r then r + 1 else if a = c then 0 else -1

/-! ## TextChunker.chunkText -/

/-- One emitted chunk: the (already trimmed) text plus the recorded span. -/
structure Chunk where
  text : List Char
  startIndex : Int
  endIndex : Int
deriving DecidableEq, Repr

/-- The body of the `while` loop of `TextChunker.chunkText`: from the
current `startIndex` produce the pushed chunk and the next `startIndex`.
`10 * ls > 7 * chunkSize` is the exact form of the source's
`lastSpaceIndex > chunkSize * 0.7`. -/
def chunkStep (text : List Char) (chunkSize overlap startIndex : Int) : Chunk × Int :=
  let len : Int := text.length
  let endIndex := min (startIndex + chunkSize) len
  let ct := jsSlice text startIndex endIndex
  if endIndex < len ∧ (ct.length : Int) = chunkSize then
    let ls := lastIdxOf ' ' ct
    if 10 * ls > 7 * chunkSize then
      (⟨jsTrim (jsSlice ct 0 (ls + 1)), startIndex, startIndex + ls + 1⟩,
        startIndex + ls + 1 - overlap)
    else
      (⟨jsTrim ct, startIndex, endIndex⟩, endIndex - overlap)
  else
    (⟨jsTrim ct, startIndex, endIndex⟩, endIndex)

/-- The `while` loop of `chunkText`.  Each iteration pushes exactly one
chunk and the loop breaks once more than 1000 chunks were pushed, so the
loop runs at most 1001 iterations; `fuel` only has to be at least 1001 for
this definition to be the loop (fuel irrelevance is proved below). -/
def chunkLoop (text : List Char) (chunkSize overlap : Int) :
    Nat → Int → List Chunk → List Chunk
  | 0, _, acc => acc
  | fuel + 1, startIndex, acc =>
    if startIndex < (text.length : Int) then
      let s := chunkStep text chunkSize overlap startIndex
      let acc' := acc ++ [s.1]
      if acc'.length > 1000 then acc'
      else chunkLoop text chunkSize overlap fuel s.2 acc'
    else acc

/-- All chunks pushed by the loop, before the final emptiness filter. -/
def chunkTextRaw (text : List Char) (chunkSize overlap : Int) : List Chunk :=
  chunkLoop text chunkSize overlap 1100 0 []

/-- `TextChunker.chunkText`: empty input short-circuits; otherwise run the
loop and drop chunks whose (trimmed) text is empty. -/
def chunkText (text : List Char) (chunkSize overlap : Int) : List Chunk :=
  if text.length = 0 then []
  else (chunkTextRaw text chunkSize overlap).filter (fun ch => ch.text.length > 0)

/-- Position `i` of the input lies in the recorded span of some chunk. -/
def covers (chunks : List Chunk) (i : Nat) : Prop :=
  ∃ ch ∈ chunks, ch.startIndex ≤ (i : Int) ∧ (i : Int) < ch.endIndex

instance (chunks : List Chunk) (i : Nat) : Decidable (covers chunks i) :=
  inferInstanceAs (Decidable (∃ ch ∈ chunks, _ ∧ _))

/-! ## AIRetryHelper.retry -/

/-- A thrown JavaScript error, with the three places
`AIRetryHelper.retry` looks for a numeric status
(`error.statusCode || error.status || error.response?.status`). -/
structure JsErr where
  message : String := ""
  statusCode : Option Int := none
  status : Option Int := none
  responseStatus : Option Int := none
deriving DecidableEq, Repr

/-- JavaScript `a || b` on optional numbers: `undefined` and `0` are falsy. -/
def jsOrNum (a b : Option Int) : Option Int :=
  match a with
  | some v => if v = 0 then b else some v
  | none => b

/-- The status the retry helper extracts from an error. -/
def errStatus (e : JsErr) : Option Int :=
  jsOrNum e.statusCode (jsOrNum e.status e.responseStatus)

/-- `statusCode && retryableStatusCodes.includes(statusCode)`: a falsy
(absent or zero) status is never retryable. -/
def isRetryable (e : JsErr) (codes : List Int) : Bool :=
  match errStatus e with
  | none => false
  | some s => if s = 0 then false else codes.contains s

/-- The default `retryableStatusCodes` of `AIRetryHelper.retry`. -/
def defaultRetryCodes : List Int := [429, 500, 502, 503, 504]

/-- The `for` loop of `AIRetryHelper.retry`, by structural recursion on the
number of attempts still allowed after the current one
(`rest = maxRetries - attempt`, so the source's `attempt === maxRetries`
test is `rest = 0`).  `fn` maps the invocation index to that invocation's
outcome; the second component counts the invocations performed.  Backoff
delays and jitter only affect timing, not the sequence of attempts, and
are not modelled. -/
def retryAux {α : Type} (fn : Nat → Except JsErr α) (codes : List Int) :
    Nat → Nat → Except JsErr α × Nat
  | attempt, 0 =>
    match fn attempt with
    | .ok v => (.ok v, 1)
    | .error e => (.error e, 1)
  | attempt, rest + 1 =>
    match fn attempt with
    | .ok v => (.ok v, 1)
    | .error e =>
      if isRetryable e codes then
        let r := retryAux fn codes (attempt + 1) rest
        (r.1, r.2 + 1)
      else (.error e, 1)

/-- `AIRetryHelper.retry` with explicit options (defaults as in source). -/
def retry {α : Type} (fn : Nat → Except JsErr α) (maxRetries : Nat := 3)
    (codes : List Int := defaultRetryCodes) : Except JsErr α × Nat :=
  retryAux fn codes 0 maxRetries

/-- The resilience scenario of §8 of the spec: status-429 failures on the
first two invocations, success on the third. -/
def scenario429 : Nat → Except JsErr Unit :=
  fun n => if n < 2 then .error { message := "rate limited", status := some 429 } else .ok ()

/-! ## AIRateLimiter -/

/-- `AIRateLimiter.checkRateLimit`: prune timestamps that left the trailing
window, reject (without recording) when the window is full, otherwise
record `now`.  Returns `(accepted?, new state)`. -/
def checkRateLimit (maxRequests : Nat) (windowMs : Int) (st : List Int) (now : Int) :
    Bool × List Int :=
  let pruned := st.filter (fun t => now - t < windowMs)
  if pruned.length ≥ maxRequests then (false, pruned)
  else (true, pruned ++ [now])

/-- The limiter state after a sequence of `checkRateLimit` calls at the
given times, starting from the initial empty state. -/
def limiterRun (maxRequests : Nat) (windowMs : Int) (calls : List Int) : List Int :=
  calls.foldl (fun st now => (checkRateLimit maxRequests windowMs st now).2) []

/-! ## Cosine similarity (both implementations)

JavaScript numbers are modelled as exact reals; floating-point rounding is
outside the scope of the claims settled here. -/

/-- The `dotProduct` accumulator of the cosine loop, for the equal-length
vectors both call sites guard for. -/
def dotProduct (a b : List ℝ) : ℝ := (List.zipWith (· * ·) a b).sum

/-- The `normA`/`normB` accumulator: the sum of the squared entries. -/
def sumSquares (a : List ℝ) : ℝ := (a.map (fun x => x * x)).sum

/-- The shared body of both `cosineSimilarity` implementations:
`denominator = sqrt(normA) * sqrt(normB)`, result `0` when the denominator
is `0`, otherwise `dotProduct / denominator`. -/
noncomputable def cosineRaw (a b : List ℝ) : ℝ :=
  let denominator := Real.sqrt (sumSquares a) * Real.sqrt (sumSquares b)
  if denominator = 0 then 0 else dotProduct a b / denominator

/-- `OpenAIEmbeddingService.cosineSimilarity`: throws on a length
mismatch. -/
noncomputable def embCosineSimilarity (a b : List ℝ) : Except JsErr ℝ :=
  if a.length ≠ b.length then .error { message := "Vectors must have the same length" }
  else .ok (cosineRaw a b)

/-- `TranscriptChunkRepository.cosineSimilarity`: returns `0` on a length
mismatch. -/
noncomputable def chunkCosineSimilarity (a b : List ℝ) : ℝ :=
  if a.length ≠ b.length then 0 else cosineRaw a b

/-! ## TranscriptChunkRepository.findSimilarChunks -/

/-- A row of the `transcript_chunks` table. -/
structure StoredChunk where
  id : String
  sessionId : String
  entryId : Option String := none
  chunkText : List Char := []
  embedding : List ℝ
  startIndex : Int := 0
  endIndex : Int := 0
  timestamp : String := ""

/-- Sort descending on a key: `a` may come before `b` when `b`'s key is at
most `a`'s.  This is the order produced by the SQL `ORDER BY ... DESC` and
by the JavaScript comparator `(a, b) => key(b) - key(a)`. -/
def descBy {α β : Type} [LinearOrder β] (key : α → β) : α → α → Prop :=
  fun a b => key b ≤ key a

instance {α β : Type} [LinearOrder β] (key : α → β) : DecidableRel (descBy key) :=
  fun a b => inferInstanceAs (Decidable (key b ≤ key a))

instance {α β : Type} [LinearOrder β] (key : α → β) : IsTotal α (descBy key) :=
  ⟨fun a b => (le_total (key b) (key a)).imp id id⟩

instance {α β : Type} [LinearOrder β] (key : α → β) : IsTrans α (descBy key) :=
  ⟨fun _ _ _ h1 h2 => le_trans h2 h1⟩

/-- The rows the `SELECT` of `findSimilarChunks` returns, before ordering:
the `WHERE "sessionId" IN (...)` clause is only added when a non-empty
`sessionIds` array is passed. -/
def candidateRows (db : List StoredChunk) (sessionIds : Option (List String)) :
    List StoredChunk :=
  match sessionIds with
  | some ids => if 0 < ids.length then db.filter (fun ch => ids.contains ch.sessionId) else db
  | none => db

/-- `TranscriptChunkRepository.findSimilarChunks`: fetch the (optionally
session-filtered) rows ordered by timestamp descending, attach the lenient
cosine similarity to the query embedding, sort descending by similarity
(stably, as ES2019 `Array.prototype.sort` is), and keep the first
`limit`. -/
noncomputable def findSimilarChunks (db : List StoredChunk) (queryEmbedding : List ℝ)
    (sessionIds : Option (List String)) (limit : Nat) : List StoredChunk :=
  let rows := (candidateRows db sessionIds).insertionSort (descBy StoredChunk.timestamp)
  let withSim := rows.map (fun ch => (ch, chunkCosineSimilarity queryEmbedding ch.embedding))
  ((withSim.insertionSort (descBy Prod.snd)).take limit).map Prod.fst

/-! ## OpenAIEmbeddingService.generateEmbedding and
SessionService.searchSessions -/

/-- A row of the `sessions` table (the fields `searchSessions` reads). -/
structure SessionRec where
  id : String
  therapistId : String
  clientId : String := ""
  startTime : String := ""
  summary : Option String := none

/-- One snippet of a search result. -/
structure Snippet where
  text : List Char
  timestamp : String
  similarity : ℝ

/-- One per-session search result. -/
structure SessionResult where
  sessionId : String
  therapistId : String
  clientId : String
  startTime : String
  summary : Option String
  similarity : ℝ
  snippets : Option (List Snippet)

/-- The value `searchSessions` resolves with. -/
structure SearchOutput where
  query : List Char
  results : List SessionResult

/-- The stores and collaborators `searchSessions` runs against.
`provider` is the outcome of the n-th embedding fetch for a given input
(the response-shape validation of `generateEmbedding` is folded into the
oracle's `Except`); `highlight` is `TextChunker.highlightText`, which no
claim constrains, treated as an opaque text transformer. -/
structure SearchEnv where
  sessions : List SessionRec
  chunkDb : List StoredChunk
  provider : Nat → List Char → Except JsErr (List ℝ)
  highlight : List Char → List (List Char) → List Char
  searchResultsLimit : Nat := 10

/-- `OpenAIEmbeddingService.generateEmbedding`: reject blank text before
any fetch, head-truncate to 8000 characters, then fetch under
`AIRetryHelper.retry` with the default options.  The second component is
the number of provider fetches performed. -/
def generateEmbedding (provider : Nat → List Char → Except JsErr (List ℝ))
    (text : List Char) : Except JsErr (List ℝ) × Nat :=
  if text = [] ∨ jsTrim text = [] then
    (.error { message := "Text is required for embedding generation" }, 0)
  else
    let truncated := if 8000 < text.length then text.take 8000 else text
    retryAux (fun attempt => provider attempt truncated) defaultRetryCodes 0 3

/-- The insertion-ordered `sessionMap` of `searchSessions`: for each
session id, its candidate chunks with their (strict-policy) similarities,
and the running `maxSimilarity`. -/
abbrev GroupAcc : Type := List (String × List (StoredChunk × ℝ) × ℝ)

/-- Record one candidate chunk in the `sessionMap`, as the grouping loop
of `searchSessions` does: a new session id is appended, an existing one
gets the chunk pushed and its `maxSimilarity` raised if exceeded. -/
noncomputable def insertChunk (groups : GroupAcc) (sid : String) (ch : StoredChunk) (sim : ℝ) : GroupAcc :=
  if (groups.map Prod.fst).contains sid then
    groups.map (fun g =>
      if g.1 = sid then (g.1, g.2.1 ++ [(ch, sim)], if g.2.2 < sim then sim else g.2.2) else g)
  else groups ++ [(sid, [(ch, sim)], sim)]

/-- The grouping loop of `searchSessions`.  It recomputes each candidate's
similarity through `embeddingService.cosineSimilarity` — the strict
implementation, which throws on a dimension mismatch, hence the
`Except`. -/
noncomputable def groupChunks (queryEmbedding : List ℝ) (chunks : List StoredChunk) :
    Except JsErr GroupAcc :=
  chunks.foldl
    (fun acc ch =>
      match acc with
      | .error e => .error e
      | .ok groups =>
        match embCosineSimilarity queryEmbedding ch.embedding with
        | .error e => .error e
        | .ok sim => .ok (insertChunk groups ch.sessionId ch sim))
    (.ok [])

/-- The result-building loop of `searchSessions`: for each group (in map
insertion order) look the session up, skipping ids that no longer resolve;
sort the group's chunks descending by similarity, keep the top 3 as
snippets (with highlighting applied to their text), and carry the group's
`maxSimilarity`. -/
noncomputable def buildResults (env : SearchEnv) (queryTerms : List (List Char))
    (groups : GroupAcc) : List SessionResult :=
  groups.foldl
    (fun acc g =>
      match env.sessions.find? (fun s => s.id = g.1) with
      | none => acc
      | some session =>
        let topChunks := (g.2.1.insertionSort (descBy Prod.snd)).take 3
        let snippets := topChunks.map (fun p =>
          { text := env.highlight p.1.chunkText queryTerms
            timestamp := p.1.timestamp
            similarity := p.2 : Snippet })
        acc ++ [{ sessionId := session.id
                  therapistId := session.therapistId
                  clientId := session.clientId
                  startTime := session.startTime
                  summary := session.summary
                  similarity := g.2.2
                  snippets := if 0 < snippets.length then some snippets else none }])
    []

/-- The tail of `searchSessions` after the query embedding and the session
filter are in hand: over-fetch `3 ×` the configured limit of candidate
chunks, group them by session, build the per-session results, sort them
descending by session `maxSimilarity` and truncate to the configured
limit. -/
noncomputable def searchCore (env : SearchEnv) (query : List Char)
    (queryTerms : List (List Char)) (queryEmbedding : List ℝ)
    (sessionIds : Option (List String)) : Except JsErr SearchOutput :=
  let chunks := findSimilarChunks env.chunkDb queryEmbedding sessionIds
    (env.searchResultsLimit * 3)
  match groupChunks queryEmbedding chunks with
  | .error e => .error e
  | .ok groups =>
    let results := buildResults env queryTerms groups
    let sorted := results.insertionSort (descBy SessionResult.similarity)
    .ok { query := query, results := sorted.take env.searchResultsLimit }

/-- `SessionService.searchSessions`.  The guard `!query` only catches the
empty string; whitespace-only queries pass it.  The query is embedded
before the therapist filter is resolved; an empty resolved filter
short-circuits with zero results.  The second component counts provider
fetches.  Query terms are the whitespace-separated words longer than two
characters (the empty fragments JavaScript `split(/\s+/)` can produce are
below that length bound either way). -/
noncomputable def searchSessions (env : SearchEnv) (query : List Char)
    (therapistId : Option String) : Except JsErr SearchOutput × Nat :=
  if query = [] then
    (.error { message := "Query parameter is required", statusCode := some 400 }, 0)
  else
    match generateEmbedding env.provider query with
    | (.error e, n) => (.error e, n)
    | (.ok queryEmbedding, n) =>
      let queryTerms := (query.splitOnP isJsWs).filter (fun t => 2 < t.length)
      match therapistId with
      | some tid =>
        let ids := (env.sessions.filter (fun s => s.therapistId = tid)).map (fun s => s.id)
        if ids.length = 0 then (.ok { query := query, results := [] }, n)
        else (searchCore env query queryTerms queryEmbedding (some ids), n)
      | none => (searchCore env query queryTerms queryEmbedding none, n)

/-! ## Concrete instances used by witnesses and counterexamples -/

/-- A non-retryable client error (status 400). -/
def e400bad : JsErr := { message := "Bad Request", status := some 400 }

/-- The coverage-gap input: `"ab"` followed by six spaces and `"cd"`. -/
def exGap : List Char := ['a', 'b', ' ', ' ', ' ', ' ', ' ', ' ', 'c', 'd']

/-- The stagnation input for the chunk cap: with `chunkSize = 10` and
`overlap = 9` the word-boundary break returns to the same `startIndex`
forever. -/
def exStag : List Char :=
  ['a', 'a', 'a', 'a', 'a', 'a', 'a', 'a', ' ', 'a', 'z', 'z', 'z']

/-- A stored chunk of session `s1` whose embedding matches the probe
query exactly. -/
noncomputable def chA : StoredChunk := { id := "A", sessionId := "s1", embedding := [1] }

/-- A stored chunk of session `s2` with a zero embedding. -/
noncomputable def chB : StoredChunk := { id := "B", sessionId := "s2", embedding := [0] }

/-- A two-chunk store over two sessions. -/
noncomputable def db2 : List StoredChunk := [chA, chB]

/-- A search environment with no stored data and a provider that always
resolves with a one-dimensional embedding. -/
def envEmpty : SearchEnv where
  sessions := []
  chunkDb := []
  provider := fun _ _ => .ok [1]
  highlight := fun t _ => t
  searchResultsLimit := 10

end AISM

namespace AISM

/-! # Theorems -/

/-! ## C5 and C6: the two cosine-similarity policies -/

/-- C5: on vectors of unequal length the embedding-service
`cosineSimilarity` fails with the dimension-mismatch error while the
chunk-ranking one returns `0` without failing; on vectors of equal length
the two implementations return the same value. -/
theorem cosine_mismatch_policy_spec :
    (∀ a b : List ℝ, a.length ≠ b.length →
      embCosineSimilarity a b = .error { message := "Vectors must have the same length" }
        ∧ chunkCosineSimilarity a b = 0)
    ∧ (∀ a b : List ℝ, a.length = b.length →
        embCosineSimilarity a b = .ok (chunkCosineSimilarity a b)) := by
  constructor
  · intro a b h
    exact ⟨by simp [embCosineSimilarity, h], by simp [chunkCosineSimilarity, h]⟩
  · intro a b h
    simp [embCosineSimilarity, chunkCosineSimilarity, h]

/-- Witness for C5 at `[1]` against `[1, 2]` (mismatch) and `[1]` against
`[2]` (equal length). -/
theorem cosine_mismatch_policy_witness :
    (embCosineSimilarity [(1 : ℝ)] [1, 2]
        = .error { message := "Vectors must have the same length" }
      ∧ chunkCosineSimilarity [(1 : ℝ)] [1, 2] = 0)
    ∧ embCosineSimilarity [(1 : ℝ)] [(2 : ℝ)] = .ok (chunkCosineSimilarity [1] [2]) :=
  ⟨cosine_mismatch_policy_spec.1 [1] [1, 2] (by simp),
    cosine_mismatch_policy_spec.2 [1] [2] (by simp)⟩

/-- C6: on equal-length vectors the lenient `cosineSimilarity` is
`dot(a,b) / (‖a‖ * ‖b‖)`; when either norm is exactly `0` it returns
exactly `0`; and (being total functions into `ℝ` resp. a returned `ok`)
neither a division-by-zero nor any other exception occurs. -/
theorem cosine_zero_norm_spec :
    ∀ a b : List ℝ, a.length = b.length →
      chunkCosineSimilarity a b
          = dotProduct a b / (Real.sqrt (sumSquares a) * Real.sqrt (sumSquares b))
        ∧ ((Real.sqrt (sumSquares a) = 0 ∨ Real.sqrt (sumSquares b) = 0) →
            chunkCosineSimilarity a b = 0)
        ∧ embCosineSimilarity a b = .ok (chunkCosineSimilarity a b) := by
  intro a b h
  have hne : ¬a.length ≠ b.length := by simp [h]
  refine ⟨?_, ?_, by simp [embCosineSimilarity, chunkCosineSimilarity, h]⟩
  · unfold chunkCosineSimilarity cosineRaw
    rw [if_neg hne]
    by_cases hd : Real.sqrt (sumSquares a) * Real.sqrt (sumSquares b) = 0
    · rw [if_pos hd, hd, div_zero]
    · rw [if_neg hd]
  · intro h0
    have hd : Real.sqrt (sumSquares a) * Real.sqrt (sumSquares b) = 0 := by
      rcases h0 with h0 | h0 <;> simp [h0]
    unfold chunkCosineSimilarity cosineRaw
    rw [if_neg hne, if_pos hd]

/-- Witness for C6 at the all-zero vector `[0, 0]` against `[1, 1]`. -/
theorem cosine_zero_norm_witness :
    chunkCosineSimilarity [(0 : ℝ), 0] [1, 1]
        = dotProduct [0, 0] [1, 1]
            / (Real.sqrt (sumSquares [0, 0]) * Real.sqrt (sumSquares [1, 1]))
      ∧ chunkCosineSimilarity [(0 : ℝ), 0] [1, 1] = 0
      ∧ embCosineSimilarity [(0 : ℝ), 0] [1, 1]
          = .ok (chunkCosineSimilarity [0, 0] [1, 1]) := by
  have h := cosine_zero_norm_spec [0, 0] [1, 1] (by simp)
  exact ⟨h.1, h.2.1 (Or.inl (by simp [sumSquares])), h.2.2⟩

/-! ## C9: an explicitly empty session filter -/

/-- C9: an empty `sessionIds` array disables the session filter entirely:
`findSimilarChunks` behaves exactly as with no filter, every stored chunk
being a candidate. -/
theorem find_similar_empty_filter (db : List StoredChunk) (q : List ℝ) (limit : Nat) :
    findSimilarChunks db q (some []) limit = findSimilarChunks db q none limit
    ∧ candidateRows db (some []) = db := by
  exact ⟨by simp [findSimilarChunks, candidateRows], by simp [candidateRows]⟩

/-! ## C10: the sliding-window rate limiter -/

/-- After one `checkRateLimit` on a state within the capacity bound the
state stays within it. -/
theorem checkRateLimit_length_le {maxRequests : Nat} {windowMs : Int} {st : List Int}
    (now : Int) (h : st.length ≤ maxRequests) :
    (checkRateLimit maxRequests windowMs st now).2.length ≤ maxRequests := by
  unfold checkRateLimit
  by_cases hc : (st.filter (fun t => now - t < windowMs)).length ≥ maxRequests
  · simpa [hc] using le_trans (List.length_filter_le _ _) h
  · have := List.length_filter_le (fun t => now - t < windowMs) st
    simp only [hc, if_false, ite_false, List.length_append, List.length_cons,
      List.length_nil]
    omega

/-- Any state reached from the empty state is within the capacity bound. -/
theorem limiterRun_length_le (maxRequests : Nat) (windowMs : Int) (calls : List Int) :
    (limiterRun maxRequests windowMs calls).length ≤ maxRequests := by
  suffices h : ∀ (st : List Int), st.length ≤ maxRequests →
      (calls.foldl (fun st now => (checkRateLimit maxRequests windowMs st now).2) st).length
        ≤ maxRequests by
    exact h [] (by simp)
  induction calls with
  | nil => intro st hst; simpa using hst
  | cons c cs ih =>
    intro st hst
    exact ih _ (checkRateLimit_length_le c hst)

/-- C10: along any call sequence from the initial state, (a) right after a
call, at most `maxRequests` recorded timestamps lie within the trailing
window of that call; (b) a rejected call records nothing: the state is
just the pruned previous state; (c) a call is rejected exactly when at
least `maxRequests` recorded timestamps lie within the trailing window at
the time of the call. -/
theorem rate_limiter_spec (maxRequests : Nat) (windowMs : Int) (calls : List Int)
    (now : Int) :
    (((checkRateLimit maxRequests windowMs (limiterRun maxRequests windowMs calls) now).2.filter
        (fun t => now - t < windowMs)).length ≤ maxRequests)
    ∧ ((checkRateLimit maxRequests windowMs (limiterRun maxRequests windowMs calls) now).1
          = false →
        (checkRateLimit maxRequests windowMs (limiterRun maxRequests windowMs calls) now).2
          = (limiterRun maxRequests windowMs calls).filter (fun t => now - t < windowMs))
    ∧ ((checkRateLimit maxRequests windowMs (limiterRun maxRequests windowMs calls) now).1
          = false ↔
        maxRequests ≤
          ((limiterRun maxRequests windowMs calls).filter
            (fun t => now - t < windowMs)).length) := by
  refine ⟨?_, ?_, ?_⟩
  · exact le_trans (List.length_filter_le _ _)
      (checkRateLimit_length_le now (limiterRun_length_le maxRequests windowMs calls))
  · intro h
    unfold checkRateLimit at *
    by_cases hc : ((limiterRun maxRequests windowMs calls).filter
        (fun t => now - t < windowMs)).length ≥ maxRequests
    · simp [hc]
    · simp [hc] at h
  · unfold checkRateLimit
    by_cases hc : ((limiterRun maxRequests windowMs calls).filter
        (fun t => now - t < windowMs)).length ≥ maxRequests
    · simp [hc]
    · simp [hc]

/-- Witness for C10: capacity 1, window 10, calls at times 0 and 1, probe
at time 2 — the probe is rejected, records nothing, and the window count
stays at 1. -/
theorem rate_limiter_witness :
    (((checkRateLimit 1 10 (limiterRun 1 10 [0, 1]) 2).2.filter
        (fun t => 2 - t < 10)).length ≤ 1)
    ∧ (checkRateLimit 1 10 (limiterRun 1 10 [0, 1]) 2).2
        = (limiterRun 1 10 [0, 1]).filter (fun t => 2 - t < 10)
    ∧ (checkRateLimit 1 10 (limiterRun 1 10 [0, 1]) 2).1 = false := by
  have h := rate_limiter_spec 1 10 [0, 1] 2
  have hrej : (checkRateLimit 1 10 (limiterRun 1 10 [0, 1]) 2).1 = false := by decide
  exact ⟨h.1, h.2.1 hrej, hrej⟩

/-! ## C3: AIRetryHelper.retry -/

/-- The retry loop performs at most one invocation more than the attempts
remaining. -/
theorem retryAux_count_le {α : Type} (fn : Nat → Except JsErr α) (codes : List Int) :
    ∀ (rest attempt : Nat), (retryAux fn codes attempt rest).2 ≤ rest + 1 := by
  intro rest
  induction rest with
  | zero =>
    intro attempt
    unfold retryAux
    cases fn attempt <;> simp
  | succ rest ih =>
    intro attempt
    unfold retryAux
    cases fn attempt with
    | ok v => simp
    | error e =>
      by_cases hr : isRetryable e codes
      · simp only [hr, if_true, ite_true]
        exact Nat.succ_le_succ (ih (attempt + 1))
      · simp [hr]

/-- A status that is absent (or falsy) or outside the retryable list makes
the error non-retryable. -/
theorem isRetryable_false {e : JsErr} {codes : List Int}
    (h : errStatus e = none ∨ ∃ s, errStatus e = some s ∧ codes.contains s = false) :
    isRetryable e codes = false := by
  unfold isRetryable
  rcases h with h | ⟨s, hs, hmem⟩
  · rw [h]
  · rw [hs]
    show (if s = 0 then false else codes.contains s) = false
    by_cases h0 : s = 0
    · rw [if_pos h0]
    · rw [if_neg h0]; exact hmem

/-- C3: the retry helper invokes the operation at most `maxRetries + 1`
times; an invocation failing with an absent or non-retryable status
propagates that failure with no further invocation, from any attempt; and
in the spec's scenario (429 on the first two invocations, success on the
third, `maxRetries = 3`) it returns the success after exactly 3
invocations. -/
theorem retry_spec (α : Type) :
    (∀ (fn : Nat → Except JsErr α) (codes : List Int) (maxRetries : Nat),
        (retry fn maxRetries codes).2 ≤ maxRetries + 1)
    ∧ (∀ (fn : Nat → Except JsErr α) (codes : List Int) (attempt : Nat) (e : JsErr),
        fn attempt = .error e →
        (errStatus e = none ∨ ∃ s, errStatus e = some s ∧ codes.contains s = false) →
        ∀ rest, retryAux fn codes attempt rest = (.error e, 1))
    ∧ retry scenario429 3 defaultRetryCodes = (.ok (), 3) := by
  refine ⟨?_, ?_, rfl⟩
  · intro fn codes maxRetries
    exact retryAux_count_le fn codes maxRetries 0
  · intro fn codes attempt e hfn hstat rest
    have hr := isRetryable_false hstat
    cases rest with
    | zero => unfold retryAux; rw [hfn]
    | succ rest => unfold retryAux; rw [hfn]; simp [hr]

/-! ## Chunker lemmas (C1 and C2) -/

/-- The head revealed by `dropWhile` fails the predicate. -/
theorem dropWhile_cons_head_false {α : Type} {p : α → Bool} {l l' : List α} {a : α}
    (h : List.dropWhile p l = a :: l') : p a = false := by
  induction l with
  | nil => simp [List.dropWhile] at h
  | cons b t ih =>
    rw [List.dropWhile_cons] at h
    by_cases hb : p b = true
    · rw [if_pos hb] at h
      exact ih h
    · rw [if_neg hb] at h
      cases h
      simpa using hb

/-- `jsTrim` is idempotent: emitted chunk texts are already trimmed. -/
theorem jsTrim_idem (s : List Char) : jsTrim (jsTrim s) = jsTrim s := by
  unfold jsTrim
  have h1 : List.dropWhile isJsWs (List.rdropWhile isJsWs (List.dropWhile isJsWs s))
      = List.rdropWhile isJsWs (List.dropWhile isJsWs s) := by
    rcases he : List.rdropWhile isJsWs (List.dropWhile isJsWs s) with _ | ⟨a, t⟩
    · simp
    · obtain ⟨t2, ht2⟩ := List.rdropWhile_prefix isJsWs (List.dropWhile isJsWs s)
      rw [he] at ht2
      have hwa : isJsWs a = false := dropWhile_cons_head_false ht2.symm
      rw [List.dropWhile_cons, hwa]
      simp
  rw [h1, List.rdropWhile_idempotent]

/-- `lastIndexOf` stays below the length of the string. -/
theorem lastIdxOf_lt_length (c : Char) (s : List Char) :
    lastIdxOf c s < (s.length : Int) := by
  induction s with
  | nil => simp [lastIdxOf]
  | cons a rest ih =>
    rw [lastIdxOf]
    by_cases h : 0 ≤ lastIdxOf c rest
    · simp only [h, if_true, ite_true, List.length_cons]
      push_cast
      omega
    · by_cases ha : a = c <;>
        simp only [h, ha, if_true, if_false, ite_true, ite_false, List.length_cons] <;>
        push_cast <;> omega

/-- The pushed chunk starts at the loop's `startIndex`, its recorded span
is at most `chunkSize` long, and (for a positive overlap) the next
`startIndex` does not pass the pushed chunk's recorded end. -/
theorem chunkStep_facts (text : List Char) (c o s : Int) :
    (chunkStep text c o s).1.startIndex = s
    ∧ (chunkStep text c o s).1.endIndex - s ≤ c
    ∧ (0 < o → (chunkStep text c o s).2 ≤ (chunkStep text c o s).1.endIndex) := by
  have hmin : min (s + c) ((text.length : Int)) ≤ s + c := min_le_left _ _
  unfold chunkStep
  by_cases h1 : min (s + c) ((text.length : Int)) < ((text.length : Int))
      ∧ ((jsSlice text s (min (s + c) ((text.length : Int)))).length : Int) = c
  · rw [if_pos h1]
    have hls := lastIdxOf_lt_length ' ' (jsSlice text s (min (s + c) ((text.length : Int))))
    rw [h1.2] at hls
    by_cases h2 : 10 * lastIdxOf ' ' (jsSlice text s (min (s + c) ((text.length : Int))))
        > 7 * c
    · rw [if_pos h2]
      exact ⟨rfl, by dsimp only; omega, fun ho => by dsimp only; omega⟩
    · rw [if_neg h2]
      exact ⟨rfl, by dsimp only; omega, fun ho => by dsimp only; omega⟩
  · rw [if_neg h1]
    exact ⟨rfl, by dsimp only; omega, fun _ => by dsimp only; omega⟩

/-- Every property of all outputs of `chunkStep` holds for everything the
loop appends. -/
theorem chunkLoop_all {P : Chunk → Prop} {text : List Char} {c o : Int}
    (hstep : ∀ s, P (chunkStep text c o s).1) :
    ∀ (fuel : Nat) (start : Int) (acc : List Chunk), (∀ ch ∈ acc, P ch) →
      ∀ ch ∈ chunkLoop text c o fuel start acc, P ch := by
  intro fuel
  induction fuel with
  | zero => intro start acc hacc; simpa [chunkLoop] using hacc
  | succ fuel ih =>
    intro start acc hacc ch hch
    simp only [chunkLoop] at hch
    split at hch
    · split at hch
      · rcases List.mem_append.mp hch with h | h
        · exact hacc ch h
        · rw [List.mem_singleton.mp h]
          exact hstep start
      · refine ih _ _ ?_ ch hch
        intro ch' hch'
        rcases List.mem_append.mp hch' with h | h
        · exact hacc ch' h
        · rw [List.mem_singleton.mp h]
          exact hstep start
    · exact hacc ch hch

/-- The loop never returns more than 1001 chunks. -/
theorem chunkLoop_length {text : List Char} {c o : Int} :
    ∀ (fuel : Nat) (start : Int) (acc : List Chunk), acc.length ≤ 1000 →
      (chunkLoop text c o fuel start acc).length ≤ 1001 := by
  intro fuel
  induction fuel with
  | zero => intro start acc hacc; simp only [chunkLoop]; omega
  | succ fuel ih =>
    intro start acc hacc
    simp only [chunkLoop]
    split
    · split
      · simp only [List.length_append, List.length_cons, List.length_nil]
        omega
      · refine ih _ _ ?_
        rename_i hcap
        simp only [List.length_append, List.length_cons, List.length_nil] at hcap ⊢
        omega
    · omega

/-- Fuel irrelevance: any fuel that covers the worst case (1001
iterations) computes the loop exactly. -/
theorem chunkLoop_fuel {text : List Char} {c o : Int} :
    ∀ (f1 f2 : Nat) (start : Int) (acc : List Chunk), acc.length ≤ 1000 →
      1001 ≤ acc.length + f1 → 1001 ≤ acc.length + f2 →
      chunkLoop text c o f1 start acc = chunkLoop text c o f2 start acc := by
  intro f1
  induction f1 with
  | zero => intro f2 start acc hacc h1 h2; omega
  | succ f1 ih =>
    intro f2 start acc hacc h1 h2
    cases f2 with
    | zero => omega
    | succ f2 =>
      simp only [chunkLoop]
      by_cases hs : start < ((text.length : Int))
      · simp only [if_pos hs]
        by_cases hcap : (acc ++ [(chunkStep text c o start).1]).length > 1000
        · simp only [if_pos hcap]
        · simp only [if_neg hcap]
          have hlen : (acc ++ [(chunkStep text c o start).1]).length = acc.length + 1 := by
            simp
          exact ih f2 _ _ (by omega) (by omega) (by omega)
      · simp only [if_neg hs]

/-- A covered position stays covered when the chunk list grows. -/
theorem covers_append {acc : List Chunk} {l : List Chunk} {i : Nat} (h : covers acc i) :
    covers (acc ++ l) i := by
  obtain ⟨ch, hm, hc⟩ := h
  exact ⟨ch, List.mem_append_left l hm, hc⟩

/-- Coverage invariant of the loop: if every position before the current
`startIndex` is already covered and the loop finishes without tripping the
1000-chunk cap, the returned chunks cover every position of the text. -/
theorem chunkLoop_covers {text : List Char} {c o : Int} (ho : 0 < o) :
    ∀ (fuel : Nat) (start : Int) (acc : List Chunk),
      1001 ≤ acc.length + fuel →
      (∀ i : Nat, (i : Int) < start → covers acc i) →
      (chunkLoop text c o fuel start acc).length ≤ 1000 →
      ∀ i : Nat, i < text.length → covers (chunkLoop text c o fuel start acc) i := by
  intro fuel
  induction fuel with
  | zero =>
    intro start acc hfuel hinv hres
    simp only [chunkLoop] at hres ⊢
    omega
  | succ fuel ih =>
    intro start acc hfuel hinv hres i hi
    simp only [chunkLoop] at hres ⊢
    by_cases hs : start < ((text.length : Int))
    · rw [if_pos hs] at hres ⊢
      by_cases hcap : (acc ++ [(chunkStep text c o start).1]).length > 1000
      · rw [if_pos hcap] at hres ⊢
        simp only [List.length_append, List.length_cons, List.length_nil] at hcap hres
        omega
      · rw [if_neg hcap] at hres ⊢
        refine ih _ _ ?_ ?_ hres i hi
        · simp only [List.length_append, List.length_cons, List.length_nil]
          omega
        · intro j hj
          rcases lt_or_le ((j : Int)) start with hjs | hjs
          · exact covers_append (hinv j hjs)
          · have hf := chunkStep_facts text c o start
            refine ⟨(chunkStep text c o start).1,
              List.mem_append_right acc (List.mem_singleton.mpr rfl), ?_, ?_⟩
            · rw [hf.1]; exact hjs
            · exact lt_of_lt_of_le hj (hf.2.2 ho)
    · rw [if_neg hs] at hres ⊢
      exact hinv i (by omega)

/-- The loop's state reproduces itself: when `chunkStep` returns to the
same `startIndex` the loop appends the same chunk until the cap trips. -/
theorem chunkLoop_stagnant {text : List Char} {c o start : Int} {ch : Chunk}
    (hstep : chunkStep text c o start = (ch, start))
    (hlt : start < ((text.length : Int))) :
    ∀ (fuel : Nat) (acc : List Chunk), acc.length ≤ 1000 → 1001 ≤ acc.length + fuel →
      chunkLoop text c o fuel start acc = acc ++ List.replicate (1001 - acc.length) ch := by
  intro fuel
  induction fuel with
  | zero => intro acc h1 h2; omega
  | succ fuel ih =>
    intro acc h1 h2
    simp only [chunkLoop, if_pos hlt, hstep]
    by_cases hcap : (acc ++ [ch]).length > 1000
    · simp only [if_pos hcap]
      simp only [List.length_append, List.length_cons, List.length_nil] at hcap
      have hlen : acc.length = 1000 := by omega
      rw [hlen]
      norm_num
    · simp only [if_neg hcap]
      simp only [List.length_append, List.length_cons, List.length_nil] at hcap
      rw [ih (acc ++ [ch]) (by simp; omega) (by simp; omega)]
      rw [List.append_assoc]
      congr 1
      have hrepl : 1001 - acc.length = (1001 - (acc ++ [ch]).length) + 1 := by
        simp only [List.length_append, List.length_cons, List.length_nil]
        omega
      rw [hrepl, List.replicate_succ]
      rfl

/-- The text of every pushed chunk is trimmed. -/
theorem chunkStep_trimmed (text : List Char) (c o s : Int) :
    jsTrim (chunkStep text c o s).1.text = (chunkStep text c o s).1.text := by
  unfold chunkStep
  by_cases h1 : min (s + c) ((text.length : Int)) < ((text.length : Int))
      ∧ ((jsSlice text s (min (s + c) ((text.length : Int)))).length : Int) = c
  · rw [if_pos h1]
    by_cases h2 : 10 * lastIdxOf ' ' (jsSlice text s (min (s + c) ((text.length : Int))))
        > 7 * c
    · rw [if_pos h2]
      exact jsTrim_idem _
    · rw [if_neg h2]
      exact jsTrim_idem _
  · rw [if_neg h1]
    exact jsTrim_idem _

/-! ## C1: span coverage, span bound, non-emptiness -/

/-- C1 (amended): with `0 < overlap < chunkSize`, provided the loop
finishes without tripping the 1000-chunk safety cap, the spans of the
chunks it pushes — including those later dropped for trimming to empty —
cover the whole input; moreover every emitted chunk's span is at most
`chunkSize` long and no emitted chunk's text is empty after trimming.  (As
stated the claim is false: the emitted chunks alone need not cover the
text, see the counterexample.) -/
theorem chunker_spec (text : List Char) (c o : Int) (ho : 0 < o) (hoc : o < c)
    (hcap : (chunkTextRaw text c o).length ≤ 1000) :
    (∀ i : Nat, i < text.length → covers (chunkTextRaw text c o) i)
    ∧ (∀ ch ∈ chunkText text c o,
        ch.endIndex - ch.startIndex ≤ c ∧ jsTrim ch.text = ch.text ∧ ch.text ≠ []) := by
  constructor
  · intro i hi
    refine chunkLoop_covers ho 1100 0 [] (by simp) ?_ hcap i hi
    intro j hj
    omega
  · intro ch hch
    rw [chunkText] at hch
    split at hch
    · exact absurd hch (List.not_mem_nil ch)
    · have hmem := List.mem_filter.mp hch
      have hspan : ch.endIndex - ch.startIndex ≤ c := by
        have hstep : ∀ s, ((chunkStep text c o s).1.endIndex
            - (chunkStep text c o s).1.startIndex ≤ c) := by
          intro s
          have hf := chunkStep_facts text c o s
          rw [hf.1]
          exact hf.2.1
        exact chunkLoop_all (P := fun ch => ch.endIndex - ch.startIndex ≤ c) hstep
          1100 0 [] (by simp) ch hmem.1
      have htrim : jsTrim ch.text = ch.text :=
        chunkLoop_all (P := fun ch => jsTrim ch.text = ch.text)
          (fun s => chunkStep_trimmed text c o s) 1100 0 [] (by simp) ch hmem.1
      refine ⟨hspan, htrim, ?_⟩
      intro hnil
      have := hmem.2
      rw [hnil] at this
      simp at this

/-- Counterexample for C1 as stated: for `"ab      cd"` with
`chunkSize = 4`, `overlap = 1` (so `0 < overlap < chunkSize`), the middle
all-whitespace chunk is dropped after trimming and position 4 of the text
lies in no emitted chunk's span. -/
theorem chunker_coverage_gap :
    (0 : Int) < 1 ∧ (1 : Int) < 4 ∧ ¬ covers (chunkText exGap 4 1) 4 := by
  refine ⟨by norm_num, by norm_num, ?_⟩
  decide

/-- Witness for C1 (amended) on `"one two"` with `chunkSize = 5`,
`overlap = 1`: the pre-filter spans cover all 7 positions and the emitted
chunks obey the span and trimming bounds. -/
theorem chunker_spec_witness :
    (∀ i : Nat, i < (['o', 'n', 'e', ' ', 't', 'w', 'o'] : List Char).length →
      covers (chunkTextRaw ['o', 'n', 'e', ' ', 't', 'w', 'o'] 5 1) i)
    ∧ (∀ ch ∈ chunkText ['o', 'n', 'e', ' ', 't', 'w', 'o'] 5 1,
        ch.endIndex - ch.startIndex ≤ 5 ∧ jsTrim ch.text = ch.text ∧ ch.text ≠ []) :=
  chunker_spec ['o', 'n', 'e', ' ', 't', 'w', 'o'] 5 1 (by norm_num) (by norm_num)
    (by decide)

/-! ## C2: termination and the chunk-count cap -/

/-- C2 (amended): for every input and configuration the chunker
terminates — any fuel of at least 1001 iterations computes the loop
exactly — and emits at most 1001 chunks (the source's cap check `> 1000`
runs after the push, so the bound reached is 1001, not 1000). -/
theorem chunker_cap_spec (text : List Char) (c o : Int) :
    (chunkText text c o).length ≤ 1001
    ∧ (∀ fuel : Nat, 1001 ≤ fuel →
        chunkLoop text c o fuel 0 [] = chunkTextRaw text c o) := by
  constructor
  · rw [chunkText]
    split
    · simp
    · exact le_trans (List.length_filter_le _ _) (chunkLoop_length 1100 0 [] (by simp))
  · intro fuel hf
    rw [chunkTextRaw]
    exact chunkLoop_fuel fuel 1100 0 [] (by simp) (by omega) (by omega)

/-- Counterexample for C2 as stated: on the stagnating input with
`chunkSize = 10`, `overlap = 9` the loop repeats the same non-empty chunk
until the cap trips and `chunkText` returns 1001 chunks, exceeding the
claimed bound of 1000. -/
theorem chunker_emits_1001 : ¬ ((chunkText exStag 10 9).length ≤ 1000) := by
  have hstep : chunkStep exStag 10 9 0
      = (⟨['a', 'a', 'a', 'a', 'a', 'a', 'a', 'a'], 0, 9⟩, 0) := by decide
  have hlt : (0 : Int) < ((exStag.length : Int)) := by decide
  have hraw : chunkTextRaw exStag 10 9
      = List.replicate 1001 ⟨['a', 'a', 'a', 'a', 'a', 'a', 'a', 'a'], 0, 9⟩ := by
    rw [chunkTextRaw]
    rw [chunkLoop_stagnant hstep hlt 1100 [] (by simp) (by simp)]
    rw [List.nil_append, List.length_nil, Nat.sub_zero]
  have hfull : chunkText exStag 10 9
      = List.replicate 1001 ⟨['a', 'a', 'a', 'a', 'a', 'a', 'a', 'a'], 0, 9⟩ := by
    rw [chunkText, if_neg (by decide), hraw, List.filter_replicate, if_pos (by decide)]
  rw [hfull, List.length_replicate]
  omega

/-- Witness for C2 (amended) on a one-character text. -/
theorem chunker_cap_witness :
    (chunkText ['a'] 2 1).length ≤ 1001
    ∧ chunkLoop ['a'] 2 1 1200 0 [] = chunkTextRaw ['a'] 2 1 :=
  ⟨(chunker_cap_spec ['a'] 2 1).1, (chunker_cap_spec ['a'] 2 1).2 1200 (by norm_num)⟩

/-- Witness for C3: a constantly status-400-failing operation is invoked
once, and the 429 scenario succeeds on the third invocation. -/
theorem retry_witness :
    (retry (fun _ => (.error e400bad : Except JsErr Unit)) 3 defaultRetryCodes).2 ≤ 4
    ∧ retryAux (fun _ => (.error e400bad : Except JsErr Unit)) defaultRetryCodes 0 3
        = (.error e400bad, 1)
    ∧ retry scenario429 3 defaultRetryCodes = (.ok (), 3) :=
  ⟨(retry_spec Unit).1 _ defaultRetryCodes 3,
    (retry_spec Unit).2.1 _ defaultRetryCodes 0 e400bad rfl (Or.inr ⟨400, rfl, rfl⟩) 3,
    (retry_spec Unit).2.2⟩

/-! ## C7: findSimilarChunks ranking -/

/-- Ranking a list by a real-valued key, sorting descending (stably) and
keeping the first `limit`: the output is no longer than `limit`, draws
from the input, is sorted by non-increasing key, and dominates in key
every input element not kept. -/
theorem rankTake_facts {α : Type} (key : α → ℝ) (l : List α) (limit : Nat) :
    ((((l.map (fun x => (x, key x))).insertionSort (descBy Prod.snd)).take limit).map
        Prod.fst).length ≤ limit
    ∧ (∀ x ∈ (((l.map (fun x => (x, key x))).insertionSort (descBy Prod.snd)).take limit).map
        Prod.fst, x ∈ l)
    ∧ List.Sorted (descBy key)
        ((((l.map (fun x => (x, key x))).insertionSort (descBy Prod.snd)).take limit).map
          Prod.fst)
    ∧ (∀ x ∈ (((l.map (fun x => (x, key x))).insertionSort (descBy Prod.snd)).take limit).map
        Prod.fst, ∀ y ∈ l,
        y ∉ (((l.map (fun x => (x, key x))).insertionSort (descBy Prod.snd)).take limit).map
          Prod.fst → key y ≤ key x) := by
  set pairs := l.map (fun x => (x, key x)) with hpairs
  set sorted := pairs.insertionSort (descBy Prod.snd) with hsorted
  set res := (sorted.take limit).map Prod.fst with hres
  have hsor : List.Sorted (descBy (Prod.snd : α × ℝ → ℝ)) sorted :=
    List.sorted_insertionSort _ _
  have hperm : sorted.Perm pairs := List.perm_insertionSort _ _
  have hsnd : ∀ p ∈ sorted, p.2 = key p.1 ∧ p.1 ∈ l := by
    intro p hp
    have hmem : p ∈ pairs := hperm.mem_iff.mp hp
    rw [hpairs] at hmem
    obtain ⟨x, hx, rfl⟩ := List.mem_map.mp hmem
    exact ⟨rfl, hx⟩
  refine ⟨?_, ?_, ?_, ?_⟩
  · rw [hres, List.length_map]
    exact List.length_take_le _ _
  · intro x hx
    rw [hres] at hx
    obtain ⟨p, hp, rfl⟩ := List.mem_map.mp hx
    exact (hsnd p (List.take_subset _ _ hp)).2
  · rw [hres]
    show List.Pairwise _ _
    rw [List.pairwise_map]
    refine List.Pairwise.imp_of_mem ?_
      (List.Pairwise.sublist (List.take_sublist _ _) hsor)
    intro p p' hp hp' hrel
    have h1 := (hsnd p (List.take_subset _ _ hp)).1
    have h2 := (hsnd p' (List.take_subset _ _ hp')).1
    unfold descBy at hrel ⊢
    rw [← h1, ← h2]
    exact hrel
  · intro x hx y hy hnot
    rw [hres] at hx hnot
    obtain ⟨p, hp, rfl⟩ := List.mem_map.mp hx
    have hyp : (y, key y) ∈ pairs := by
      rw [hpairs]
      exact List.mem_map_of_mem _ hy
    have hys : (y, key y) ∈ sorted := hperm.mem_iff.mpr hyp
    rw [← List.take_append_drop limit sorted] at hys
    rcases List.mem_append.mp hys with hin | hdrop
    · exact absurd (List.mem_map_of_mem Prod.fst hin) hnot
    · have hrel := hsor.rel_of_mem_take_of_mem_drop hp hdrop
      have h2 := (hsnd p (List.take_subset _ _ hp)).1
      unfold descBy at hrel
      rw [← h2]
      exact hrel

/-- C7: `findSimilarChunks` returns at most `limit` chunks; with a
non-empty session filter every returned chunk's session is in the filter;
the returned chunks are ordered by non-increasing cosine similarity to the
query; and every returned chunk's similarity is at least that of every
stored candidate chunk that was not returned. -/
theorem find_similar_spec (db : List StoredChunk) (q : List ℝ)
    (sids : Option (List String)) (limit : Nat) :
    (findSimilarChunks db q sids limit).length ≤ limit
    ∧ (∀ ids : List String, sids = some ids → 0 < ids.length →
        ∀ ch ∈ findSimilarChunks db q sids limit, ch.sessionId ∈ ids)
    ∧ List.Sorted (descBy (fun ch => chunkCosineSimilarity q ch.embedding))
        (findSimilarChunks db q sids limit)
    ∧ (∀ ch ∈ findSimilarChunks db q sids limit, ∀ cand ∈ candidateRows db sids,
        cand ∉ findSimilarChunks db q sids limit →
        chunkCosineSimilarity q cand.embedding ≤ chunkCosineSimilarity q ch.embedding) := by
  have hre : findSimilarChunks db q sids limit
      = (((((candidateRows db sids).insertionSort (descBy StoredChunk.timestamp)).map
          (fun ch => (ch, chunkCosineSimilarity q ch.embedding))).insertionSort
            (descBy Prod.snd)).take limit).map Prod.fst := rfl
  obtain ⟨h1, h2, h3, h4⟩ := rankTake_facts (fun ch => chunkCosineSimilarity q ch.embedding)
    ((candidateRows db sids).insertionSort (descBy StoredChunk.timestamp)) limit
  have hrows : ∀ x : StoredChunk,
      x ∈ (candidateRows db sids).insertionSort (descBy StoredChunk.timestamp)
        ↔ x ∈ candidateRows db sids :=
    fun x => (List.perm_insertionSort _ _).mem_iff
  refine ⟨?_, ?_, ?_, ?_⟩
  · rw [hre]
    exact h1
  · intro ids hids hlen ch hch
    rw [hre] at hch
    have hmem := (hrows ch).mp (h2 ch hch)
    rw [hids] at hmem
    have heq : candidateRows db (some ids)
        = if 0 < ids.length then db.filter (fun ch => ids.contains ch.sessionId) else db := rfl
    rw [heq, if_pos hlen] at hmem
    have := List.mem_filter.mp hmem
    simpa using this.2
  · rw [hre]
    exact h3
  · intro ch hch cand hcand hnot
    rw [hre] at hch hnot
    exact h4 ch hch cand ((hrows cand).mpr hcand) hnot

/-- The similarity of a unit vector with itself is 1. -/
theorem cos_one_one : chunkCosineSimilarity [(1 : ℝ)] [(1 : ℝ)] = 1 := by
  simp [chunkCosineSimilarity, cosineRaw, sumSquares, dotProduct]

/-- The similarity of a unit vector with the zero vector is 0. -/
theorem cos_one_zero : chunkCosineSimilarity [(1 : ℝ)] [(0 : ℝ)] = 0 := by
  simp [chunkCosineSimilarity, cosineRaw, sumSquares, dotProduct]

/-- The two-chunk store searched with the probe query, filter
`["s1", "s2"]` and limit 1 returns exactly the matching chunk. -/
theorem db2_search_eval : findSimilarChunks db2 [1] (some ["s1", "s2"]) 1 = [chA] := by
  have hcand : candidateRows db2 (some ["s1", "s2"]) = [chA, chB] := by
    simp [candidateRows, db2, chA, chB]
  simp [findSimilarChunks, hcand, chA, chB, List.insertionSort, List.orderedInsert,
    descBy, cos_one_one, cos_one_zero]

/-- Witness for C7 on the two-chunk store: limit respected, filter
respected, result sorted, and the rejected zero chunk dominated. -/
theorem find_similar_witness :
    (findSimilarChunks db2 [1] (some ["s1", "s2"]) 1).length ≤ 1
    ∧ chA.sessionId ∈ ["s1", "s2"]
    ∧ List.Sorted (descBy (fun ch => chunkCosineSimilarity [1] ch.embedding))
        (findSimilarChunks db2 [1] (some ["s1", "s2"]) 1)
    ∧ chunkCosineSimilarity [1] chB.embedding ≤ chunkCosineSimilarity [1] chA.embedding := by
  have h := find_similar_spec db2 [1] (some ["s1", "s2"]) 1
  refine ⟨h.1, ?_, h.2.2.1, ?_⟩
  · refine h.2.1 ["s1", "s2"] rfl (by norm_num) chA ?_
    rw [db2_search_eval]
    exact List.mem_singleton.mpr rfl
  · refine h.2.2.2 chA ?_ chB ?_ ?_
    · rw [db2_search_eval]
      exact List.mem_singleton.mpr rfl
    · simp [candidateRows, db2, chA, chB]
    · rw [db2_search_eval]
      simp [chA, chB]

/-! ## C4: blank queries -/

/-- C4 (amended): the empty query fails in `searchSessions` itself with
the client-fault 400 validation error and no provider fetch; a
whitespace-only (non-empty) query passes the `!query` guard but is
rejected inside `generateEmbedding`'s blank check — before any provider
fetch — with a generic error that carries no 400 status.  In both cases
the search makes no provider call (and the search path performs no store
writes at all). -/
theorem search_blank_query_spec :
    (∀ (env : SearchEnv) (tid : Option String),
      searchSessions env [] tid
        = (.error { message := "Query parameter is required", statusCode := some 400 }, 0))
    ∧ (∀ (env : SearchEnv) (tid : Option String) (q : List Char),
        q ≠ [] → jsTrim q = [] →
        searchSessions env q tid
          = (.error { message := "Text is required for embedding generation" }, 0)) := by
  constructor
  · intro env tid
    rw [searchSessions, if_pos rfl]
  · intro env tid q hq htrim
    rw [searchSessions, if_neg hq]
    have hge : generateEmbedding env.provider q
        = (.error { message := "Text is required for embedding generation" }, 0) := by
      rw [generateEmbedding, if_pos (Or.inr htrim)]
    rw [hge]

/-- Counterexample for C4 as stated: the whitespace-only query `" "` does
fail before any provider call, but with the embedding service's generic
blank-text error, which has no status — not with a 400 validation
error. -/
theorem search_whitespace_not_400 :
    searchSessions envEmpty [' '] none
      = (.error { message := "Text is required for embedding generation" }, 0)
    ∧ ({ message := "Text is required for embedding generation" } : JsErr).statusCode
        ≠ some 400 :=
  ⟨rfl, by decide⟩

/-- Witness for C4 (amended) at the empty query and a tab-only query. -/
theorem search_blank_witness :
    searchSessions envEmpty [] none
      = (.error { message := "Query parameter is required", statusCode := some 400 }, 0)
    ∧ searchSessions envEmpty ['\t'] none
      = (.error { message := "Text is required for embedding generation" }, 0) :=
  ⟨search_blank_query_spec.1 envEmpty none,
    search_blank_query_spec.2 envEmpty none ['\t'] (by decide) (by decide)⟩

/-! ## C8: search result ranking -/

/-- A property of all elements is preserved by a fold that preserves it
stepwise. -/
theorem foldl_invariant {α β : Type} (P : β → Prop) (f : List β → α → List β)
    (hf : ∀ (acc : List β) (x : α), (∀ r ∈ acc, P r) → ∀ r ∈ f acc x, P r) :
    ∀ (l : List α) (acc : List β), (∀ r ∈ acc, P r) → ∀ r ∈ l.foldl f acc, P r := by
  intro l
  induction l with
  | nil => intro acc h; simpa using h
  | cons x xs ih =>
    intro acc h
    exact ih (f acc x) (hf acc x h)

/-- Every result built by the result loop has at most 3 snippets, sorted
by non-increasing snippet similarity. -/
theorem buildResults_snippets (env : SearchEnv) (queryTerms : List (List Char))
    (groups : GroupAcc) :
    ∀ r ∈ buildResults env queryTerms groups, ∀ sn, r.snippets = some sn →
      sn.length ≤ 3 ∧ List.Sorted (descBy Snippet.similarity) sn := by
  unfold buildResults
  refine foldl_invariant
    (P := fun r : SessionResult => ∀ sn, r.snippets = some sn →
      sn.length ≤ 3 ∧ List.Sorted (descBy Snippet.similarity) sn) _ ?_ groups [] (by simp)
  intro acc g hacc r hr
  rcases hfind : env.sessions.find? (fun s => s.id = g.1) with _ | session
  · rw [hfind] at hr
    exact hacc r hr
  · rw [hfind] at hr
    rcases List.mem_append.mp hr with h | h
    · exact hacc r h
    · rw [List.mem_singleton.mp h]
      intro sn hsn
      simp only at hsn
      split at hsn
      · cases hsn
        constructor
        · rw [List.length_map]
          exact List.length_take_le _ _
        · show List.Pairwise _ _
          rw [List.pairwise_map]
          refine List.Pairwise.imp ?_
            (List.Pairwise.sublist (List.take_sublist _ _)
              (List.sorted_insertionSort (descBy Prod.snd) g.2.1))
          intro p p' hrel
          exact hrel
      · cases hsn

/-- The ok-outcome of `searchCore` is sorted by non-increasing session
similarity, truncated to the configured limit, and its snippets obey the
per-session bound and order. -/
theorem searchCore_ok (env : SearchEnv) (query : List Char)
    (queryTerms : List (List Char)) (emb : List ℝ) (sids : Option (List String))
    (out : SearchOutput) (h : searchCore env query queryTerms emb sids = .ok out) :
    List.Sorted (descBy SessionResult.similarity) out.results
    ∧ out.results.length ≤ env.searchResultsLimit
    ∧ (∀ r ∈ out.results, ∀ sn, r.snippets = some sn →
        sn.length ≤ 3 ∧ List.Sorted (descBy Snippet.similarity) sn) := by
  rw [searchCore] at h
  rcases hgc : groupChunks emb (findSimilarChunks env.chunkDb emb sids
      (env.searchResultsLimit * 3)) with e | groups
  · rw [hgc] at h
    cases h
  · rw [hgc] at h
    cases h
    refine ⟨?_, ?_, ?_⟩
    · exact List.Pairwise.sublist (List.take_sublist _ _)
        (List.sorted_insertionSort (descBy SessionResult.similarity) _)
    · exact List.length_take_le _ _
    · intro r hr
      have hmem : r ∈ buildResults env queryTerms groups :=
        (List.perm_insertionSort (descBy SessionResult.similarity) _).mem_iff.mp
          (List.take_subset _ _ hr)
      exact buildResults_snippets env queryTerms groups r hmem

/-- C8: whenever `searchSessions` returns results, they are sorted by
non-increasing session-level maximum similarity and truncated to the
configured result limit, and within each result the snippets are at most
3, sorted by non-increasing snippet similarity. -/
theorem search_ranking_spec (env : SearchEnv) (query : List Char)
    (tid : Option String) (out : SearchOutput) (n : Nat)
    (h : searchSessions env query tid = (.ok out, n)) :
    List.Sorted (descBy SessionResult.similarity) out.results
    ∧ out.results.length ≤ env.searchResultsLimit
    ∧ (∀ r ∈ out.results, ∀ sn, r.snippets = some sn →
        sn.length ≤ 3 ∧ List.Sorted (descBy Snippet.similarity) sn) := by
  by_cases hq : query = []
  · rw [searchSessions, if_pos hq] at h
    simp at h
  · rw [searchSessions, if_neg hq] at h
    rcases hge : generateEmbedding env.provider query with ⟨res, m⟩
    rw [hge] at h
    rcases res with e | emb
    · simp at h
    · dsimp only at h
      rcases tid with _ | t
      · dsimp only at h
        have hsc : searchCore env query
            ((query.splitOnP isJsWs).filter (fun t => 2 < t.length)) emb none = .ok out := by
          simp only [Prod.mk.injEq] at h
          exact h.1
        exact searchCore_ok env query _ emb none out hsc
      · dsimp only at h
        by_cases hlen : ((env.sessions.filter
            (fun s => s.therapistId = t)).map (fun s => s.id)).length = 0
        · rw [if_pos hlen] at h
          simp only [Prod.mk.injEq, Except.ok.injEq] at h
          rw [← h.1]
          exact ⟨List.sorted_nil, by simp, by simp⟩
        · rw [if_neg hlen] at h
          simp only [Prod.mk.injEq] at h
          exact searchCore_ok env query _ emb _ out h.1

/-- Witness for C8: on the empty store a non-blank query returns an ok
result (with one provider fetch), whose empty result list satisfies all
the ranking bounds. -/
theorem search_ranking_witness :
    List.Sorted (descBy SessionResult.similarity)
      (({ query := ['a', 'b', 'c'], results := [] } : SearchOutput)).results
    ∧ (({ query := ['a', 'b', 'c'], results := [] } : SearchOutput)).results.length
        ≤ envEmpty.searchResultsLimit
    ∧ (∀ r ∈ (({ query := ['a', 'b', 'c'], results := [] } : SearchOutput)).results,
        ∀ sn, r.snippets = some sn →
          sn.length ≤ 3 ∧ List.Sorted (descBy Snippet.similarity) sn) :=
  search_ranking_spec envEmpty ['a', 'b', 'c'] none
    { query := ['a', 'b', 'c'], results := [] } 1 rfl

end AISM
